import Mathlib

/-!
Verification development for the terminal fractal explorer (`choas`).

The TypeScript source is embedded shallowly:
* the escape-time iteration loops of `mandelbrot` / `julia` run over `ℚ`
  (every IEEE double is a rational, and the loop uses only field operations
  and comparisons);
* the smooth-coloring formula and the HSL colour computations, which use
  `Math.log` / `Math.sin`, are embedded over `ℝ` with `Real.log` / `Real.sin`;
* the mutable module-level view state is an explicit `ExplorerState` record,
  `handleKeypress` / `animationTick` are pure transition functions, and every
  call to `Math.random()` is replaced by a value drawn from an injected
  stream `rand : ℕ → ℚ`.
-/

namespace Choas

/-- Shared escape-time loop body.  Both `mandelbrot` (lines 136-146 of the
source: `z` starts at `0`, `c` is the sampled point) and `julia`
(lines 156-164: `z` starts at the sampled point, `c` is the Julia parameter)
run the identical `while (iter < maxIter && zr*zr+zi*zi < 4)` loop; `fuel`
is the number of remaining iterations (`maxIter - iter`). -/
def escapeLoop (cr ci : ℚ) (zr zi : ℚ) (iter : ℕ) (fuel : ℕ) : ℕ × ℚ × ℚ :=
  match fuel with
  | 0 => (iter, zr, zi)
  | f + 1 =>
    if zr * zr + zi * zi < 4 then
      escapeLoop cr ci (zr * zr - zi * zi + cr) (2 * zr * zi + ci) (iter + 1) f
    else (iter, zr, zi)

/-- Iteration part of `mandelbrot(cReal, cImag, maxIter)` (source lines
136-146): final iteration count and final `z`. -/
def mandelbrotIter (cr ci : ℚ) (maxIter : ℕ) : ℕ × ℚ × ℚ :=
  escapeLoop cr ci 0 0 0 maxIter

/-- Iteration part of `julia(zReal, zImag, cReal, cImag, maxIter)` (source
lines 156-164). -/
def juliaIter (zr zi cr ci : ℚ) (maxIter : ℕ) : ℕ × ℚ × ℚ :=
  escapeLoop cr ci zr zi 0 maxIter

/-- Magnitude-squared `zReal*zReal + zImag*zImag` of the final `z` of a loop
result. -/
def finalMagSq (r : ℕ × ℚ × ℚ) : ℚ :=
  r.2.1 * r.2.1 + r.2.2 * r.2.2

/-- Smooth-coloring tail of the kernels (source lines 150-153 and 168-171):
`log_zn = Math.log(m) / 2`, `nu = Math.log(log_zn / Math.log(2)) / Math.log(2)`,
result `iter + 1 - nu`. -/
noncomputable def smoothValue (iter : ℕ) (m : ℝ) : ℝ :=
  let log_zn := Real.log m / 2
  let nu := Real.log (log_zn / Real.log 2) / Real.log 2
  (iter : ℝ) + 1 - nu

/-- `mandelbrot(cReal, cImag, maxIter)` (source lines 136-154): integer count
sentinel on cap, smooth value on escape. -/
noncomputable def mandelbrot (cr ci : ℚ) (maxIter : ℕ) : ℝ :=
  let r := mandelbrotIter cr ci maxIter
  if r.1 = maxIter then (maxIter : ℝ)
  else smoothValue r.1 ((finalMagSq r : ℚ) : ℝ)

/-- `julia(zReal, zImag, cReal, cImag, maxIter)` (source lines 156-172). -/
noncomputable def julia (zr zi cr ci : ℚ) (maxIter : ℕ) : ℝ :=
  let r := juliaIter zr zi cr ci maxIter
  if r.1 = maxIter then (maxIter : ℝ)
  else smoothValue r.1 ((finalMagSq r : ℚ) : ℝ)

/-- Kernel dispatch as performed by the renderer (source lines 320-322):
`juliaMode ? julia(cReal, cImag, juliaC.real, juliaC.imag, maxIter)
           : mandelbrot(cReal, cImag, maxIter)`. -/
noncomputable def escape (juliaMode : Bool) (pr pi jr ji : ℚ) (maxIter : ℕ) : ℝ :=
  if juliaMode then julia pr pi jr ji maxIter else mandelbrot pr pi maxIter

/-- Loop-result dispatch matching `escape`. -/
def escapeIter (juliaMode : Bool) (pr pi jr ji : ℚ) (maxIter : ℕ) : ℕ × ℚ × ℚ :=
  if juliaMode then juliaIter pr pi jr ji maxIter else mandelbrotIter pr pi maxIter

/-- Color schemes (source lines 86-88). -/
inductive ColorScheme
  | rainbow
  | fire
  | ice
  | grayscale
  | green
deriving DecidableEq

/-- `COLOR_SCHEMES` (source line 87). -/
def COLOR_SCHEMES : List ColorScheme :=
  [.rainbow, .fire, .ice, .grayscale, .green]

/-- `Bookmark` (source lines 91-95). -/
structure Bookmark where
  x : ℚ
  y : ℚ
  zoom : ℚ

/-- `SPEED_PRESETS` (source lines 112-120): name and tick delay in ms. -/
def SPEED_PRESETS : List (String × ℕ) :=
  [("very slow", 400), ("slower", 300), ("slow", 200), ("normal", 150),
   ("fast", 100), ("faster", 50), ("very fast", 25)]

/-- `INTERESTING_POINTS` (source lines 124-129). -/
def INTERESTING_POINTS : List (ℚ × ℚ) :=
  [(-0.7436447860, 0.1318252536), (-0.16, 1.0405),
   (-1.25066, 0.02012), (-0.748, 0.1)]

/-- `DEFAULT_X_RANGE` (source line 133). -/
def DEFAULT_X_RANGE : ℚ := 3.5

/-- `DEFAULT_Y_RANGE` (source line 134). -/
def DEFAULT_Y_RANGE : ℚ := 2.0

/-- The module-level mutable view state (source lines 73-130) gathered into
one record.  `bookmarks` models the `Map<string, Bookmark>` keyed by the
digit `1`-`9`. -/
structure ExplorerState where
  centerX : ℚ
  centerY : ℚ
  zoom : ℚ
  maxIter : ℤ
  animating : Bool
  juliaMode : Bool
  juliaC : ℚ × ℚ
  colorSchemeIndex : ℕ
  bookmarks : ℕ → Option Bookmark
  showCrosshair : Bool
  showHelp : Bool
  speedIndex : ℕ
  targetPoint : ℚ × ℚ

/-- Initial values of the module-level state (source lines 74-130:
`centerX = -0.75`, `zoom = 1.0`, `maxIter = 100`, `juliaC = (-0.7, 0.27015)`,
`speedIndex = 3`, `targetPoint = INTERESTING_POINTS[0]`, empty bookmark map,
all flags off). -/
def initState : ExplorerState where
  centerX := -0.75
  centerY := 0
  zoom := 1
  maxIter := 100
  animating := false
  juliaMode := false
  juliaC := (-0.7, 0.27015)
  colorSchemeIndex := 0
  bookmarks := fun _ => none
  showCrosshair := false
  showHelp := false
  speedIndex := 3
  targetPoint := (-0.7436447860, 0.1318252536)

/-- Classified input events of `handleKeypress` (source lines 505-619): one
constructor per recognised key string plus the decoded SGR mouse report
(button, column, row, press flag, and the terminal size read at click time).
The `animate` key carries the injected `Math.random()` stream it may
consume; `other` stands for any unrecognised byte sequence. -/
inductive Key
  | up
  | down
  | left
  | right
  | zoomIn
  | zoomOut
  | animate (rand : ℕ → ℚ)
  | toggleJulia
  | cycleColor
  | depthDown
  | depthUp
  | reset
  | crosshair
  | help
  | screenshot
  | digit (d : ℕ)
  | shiftDigit (d : ℕ)
  | enter
  | quit
  | mouse (button mx my : ℕ) (press : Bool) (width height : ℕ)
  | other

open Classical in
/-- `findBoundaryPoint()` (source lines 405-435): sample a fixed 20×20 grid
over the visible rectangle, score the samples whose smooth Mandelbrot value
at cap 200 is strictly between 50 and 200 by `iter + Math.random() * 10`,
and keep the best-scoring sample, defaulting to the current center.  The
fold accumulator carries `(bestX, bestY, bestScore, nextRandIdx)`; the
random draw happens once per qualifying sample, as in the source. -/
noncomputable def findBoundaryPoint (rand : ℕ → ℚ) (s : ExplorerState) : ℚ × ℚ :=
  let samples : ℕ := 20
  let xRange := DEFAULT_X_RANGE / s.zoom
  let yRange := DEFAULT_Y_RANGE / s.zoom
  let xMin := s.centerX - xRange / 2
  let yMin := s.centerY - yRange / 2
  let acc :=
    (List.range samples).foldl (fun a i =>
      (List.range samples).foldl (fun a j =>
        let x := xMin + ((i : ℚ) / (samples : ℚ)) * xRange
        let y := yMin + ((j : ℚ) / (samples : ℚ)) * yRange
        let iter := mandelbrot x y 200
        if 50 < iter ∧ iter < 200 then
          let score := iter + (rand a.2.2.2 : ℝ) * 10
          if a.2.2.1 < score then (x, y, score, a.2.2.2 + 1)
          else (a.1, a.2.1, a.2.2.1, a.2.2.2 + 1)
        else a) a)
      ((s.centerX, s.centerY, (0 : ℝ), (0 : ℕ)) : ℚ × ℚ × ℝ × ℕ)
  (acc.1, acc.2.1)

/-- `startAnimation()` (source lines 437-464).  The `setInterval` side
effects are external; the state effects are: cycle the speed preset when
already animating, otherwise set `animating` and pick the initial target
(random offset around the origin in Julia mode, a random entry of
`INTERESTING_POINTS` below zoom 5, the boundary search otherwise).
`Math.floor(Math.random() * INTERESTING_POINTS.length)` indexes the array;
`getD` supplies a default the source never reaches for a draw in `[0,1)`. -/
noncomputable def startAnimation (rand : ℕ → ℚ) (s : ExplorerState) : ExplorerState :=
  if s.animating = true then
    { s with speedIndex := (s.speedIndex + 1) % SPEED_PRESETS.length }
  else
    let s1 := { s with animating := true }
    if s1.juliaMode = true then
      { s1 with targetPoint := ((rand 0 - 0.5) * 0.5, (rand 1 - 0.5) * 0.5) }
    else if s1.zoom < 5 then
      let idx := Int.toNat ⌊rand 0 * (INTERESTING_POINTS.length : ℚ)⌋
      { s1 with targetPoint := INTERESTING_POINTS.getD idx (0, 0) }
    else
      { s1 with targetPoint := findBoundaryPoint rand s1 }

/-- `stopAnimation()` (source lines 496-503); clearing the interval is
external. -/
def stopAnimation (s : ExplorerState) : ExplorerState :=
  if s.animating = false then s
  else { s with animating := false }

/-- `animationTick()` (source lines 466-494): ease the center 5% toward the
target, multiply zoom by 1.01 while below the family cap (50 Julia /
10000 Mandelbrot), clamp the Julia center box, recompute `maxIter`, and in
Mandelbrot mode past zoom 10 re-run the boundary search with probability
0.02 (`rand 0` is that draw; the boundary search consumes the rest of the
stream). -/
noncomputable def animationTick (rand : ℕ → ℚ) (s : ExplorerState) : ExplorerState :=
  let s1 := { s with
    centerX := s.centerX + (s.targetPoint.1 - s.centerX) * 0.05,
    centerY := s.centerY + (s.targetPoint.2 - s.centerY) * 0.05 }
  let maxZoom : ℚ := if s1.juliaMode = true then 50 else 10000
  let s2 := if s1.zoom < maxZoom then { s1 with zoom := s1.zoom * 1.01 } else s1
  let s3 :=
    if s2.juliaMode = true then
      { s2 with centerX := max (-2) (min 2 s2.centerX),
                centerY := max (-1.5) (min 1.5 s2.centerY) }
    else s2
  let s4 := { s3 with maxIter := min 1000 (100 + ⌊s3.zoom * 10⌋) }
  if s4.juliaMode = false ∧ 10 < s4.zoom ∧ rand 0 < 0.02 then
    { s4 with targetPoint := findBoundaryPoint (fun n => rand (n + 1)) s4 }
  else s4

/-- `handleKeypress(key)` (source lines 505-619) as a pure transition on the
state.  The help overlay swallows any key first (lines 510-514); the SGR
mouse report branch follows (lines 517-537); then the individual keys in
source order.  `q`/Ctrl-C additionally terminate the process (external),
after `stopAnimation()`; `s` writes a screenshot file (external) and leaves
the state unchanged. -/
noncomputable def handleKeypress (k : Key) (s : ExplorerState) : ExplorerState :=
  let panAmount := 0.1 / s.zoom
  if s.showHelp = true then { s with showHelp := false }
  else
    match k with
    | .mouse button mx my press width height =>
      if button = 0 ∧ press = true then
        let xRange := DEFAULT_X_RANGE / s.zoom
        let yRange := DEFAULT_Y_RANGE / s.zoom
        let xMin := s.centerX - xRange / 2
        let yMax := s.centerY + yRange / 2
        { s with centerX := xMin + ((mx : ℚ) / (width : ℚ)) * xRange,
                 centerY := yMax - ((my : ℚ) / ((height : ℚ) - 1)) * yRange }
      else s
    | .up => { s with centerY := s.centerY + panAmount }
    | .down => { s with centerY := s.centerY - panAmount }
    | .right => { s with centerX := s.centerX + panAmount }
    | .left => { s with centerX := s.centerX - panAmount }
    | .zoomIn => { s with zoom := s.zoom * 1.5 }
    | .zoomOut => { s with zoom := max 0.1 (s.zoom / 1.5) }
    | .animate rand => startAnimation rand s
    | .toggleJulia =>
      let s1 := { s with juliaMode := !s.juliaMode }
      let s2 :=
        if s1.juliaMode = true then { s1 with centerX := 0, centerY := 0 }
        else { s1 with centerX := -0.75, centerY := 0 }
      { s2 with zoom := 1 }
    | .cycleColor =>
      { s with colorSchemeIndex := (s.colorSchemeIndex + 1) % COLOR_SCHEMES.length }
    | .depthDown => { s with maxIter := max 50 (s.maxIter - 50) }
    | .depthUp => { s with maxIter := min 1000 (s.maxIter + 50) }
    | .reset =>
      { s with centerX := if s.juliaMode = true then 0 else -0.75,
               centerY := 0, zoom := 1, maxIter := 100 }
    | .crosshair => { s with showCrosshair := !s.showCrosshair }
    | .help => { s with showHelp := true }
    | .screenshot => s
    | .digit d =>
      match s.bookmarks d with
      | some b => { s with centerX := b.x, centerY := b.y, zoom := b.zoom }
      | none => s
    | .shiftDigit d =>
      { s with bookmarks :=
          Function.update s.bookmarks d (some ⟨s.centerX, s.centerY, s.zoom⟩) }
    | .enter => stopAnimation s
    | .quit => stopAnimation s
    | .other => s

/-- Plane point the renderer colours at cell `(col, row)` (source lines
296-318): the visible rectangle derived from center and zoom, then the
per-cell mapping, with the vertical coordinate scaled by the fixed
aspect-ratio factor (`aspectRatio = 2.0` in the source, written `aspect`
here). -/
def renderPoint (s : ExplorerState) (width height col row : ℕ) : ℚ × ℚ :=
  let aspect : ℚ := 2
  let xRange := DEFAULT_X_RANGE / s.zoom
  let yRange := DEFAULT_Y_RANGE / s.zoom
  let xMin := s.centerX - xRange / 2
  let xMax := s.centerX + xRange / 2
  let yMin := s.centerY - yRange / 2
  let yMax := s.centerY + yRange / 2
  (xMin + ((col : ℚ) / (width : ℚ)) * (xMax - xMin),
   yMax - ((row : ℚ) / ((height : ℚ) - 1)) * (yMax - yMin) * aspect
     + (yMax - yMin) * (aspect - 1) / 2)

open Classical in
/-- JavaScript's `%` on numbers: the remainder of truncating division,
`x - y * trunc(x / y)`. -/
noncomputable def jsMod (x y : ℝ) : ℝ :=
  x - y * (if 0 ≤ x / y then ((⌊x / y⌋ : ℤ) : ℝ) else ((⌈x / y⌉ : ℤ) : ℝ))

/-- Hue/saturation/lightness triple computed by the `switch` of `getColor`
(source lines 205-230) for the HSL-based schemes.  For `grayscale` the
source returns a direct gray level and never forms an HSL triple, so that
branch is a placeholder the source never consults. -/
noncomputable def getColorHSL (scheme : ColorScheme) (iter : ℝ) : ℝ × ℝ × ℝ :=
  match scheme with
  | .fire => (60 - jsMod (iter * 2) 60, 1.0, 0.3 + 0.3 * Real.sin (iter * 0.1))
  | .ice => (180 + jsMod (iter * 3) 60, 0.9, 0.4 + 0.2 * Real.sin (iter * 0.1))
  | .grayscale => (0, 0, 0)
  | .green => (90 + jsMod (iter * 2) 60, 0.9, 0.3 + 0.3 * Real.sin (iter * 0.1))
  | .rainbow => (jsMod (iter * 7) 360, 0.8, 0.4 + 0.2 * Real.sin (iter * 0.1))

/-- Invariant carried by every reachable state: the spec's viewport
invariants together with the fact that every stored bookmark was saved at a
zoom already satisfying the floor. -/
def GoodState (s : ExplorerState) : Prop :=
  0.1 ≤ s.zoom ∧ 50 ≤ s.maxIter ∧ s.maxIter ≤ 1000 ∧
    ∀ d b, s.bookmarks d = some b → 0.1 ≤ b.zoom

/-- States reachable from start-up through key events and animation ticks. -/
inductive Reachable : ExplorerState → Prop
  | init : Reachable initState
  | step (k : Key) (s : ExplorerState) :
      Reachable s → Reachable (handleKeypress k s)
  | tick (rand : ℕ → ℚ) (s : ExplorerState) :
      Reachable s → Reachable (animationTick rand s)

/-- `n` animation ticks in a row, tick `i` drawing from the stream
`rands i`. -/
noncomputable def iterTick (rands : ℕ → ℕ → ℚ) : ℕ → ExplorerState → ExplorerState
  | 0, s => s
  | n + 1, s => iterTick rands n (animationTick (rands n) s)

/-- A Julia-mode animating state reached from start-up by toggling to Julia,
pressing zoom-in ten times (zoom `(3/2)^10 ≈ 57.7`, already past the Julia
tick cap of 50, because the manual zoom key is uncapped) and then starting
the animation with an injected random stream that always returns 0. -/
noncomputable def overCapJulia : ExplorerState :=
  List.foldl (fun t k => handleKeypress k t) initState
    [Key.toggleJulia, Key.zoomIn, Key.zoomIn, Key.zoomIn, Key.zoomIn, Key.zoomIn,
     Key.zoomIn, Key.zoomIn, Key.zoomIn, Key.zoomIn, Key.zoomIn,
     Key.animate (fun _ => 0)]

end Choas

namespace Choas

theorem escapeLoop_fst_le (cr ci : ℚ) :
    ∀ (fuel : ℕ) (zr zi : ℚ) (iter : ℕ),
      (escapeLoop cr ci zr zi iter fuel).1 ≤ iter + fuel := by
  intro fuel
  induction fuel with
  | zero => intro zr zi iter; simp [escapeLoop]
  | succ f ih =>
    intro zr zi iter
    rw [escapeLoop]
    split
    · have := ih (zr * zr - zi * zi + cr) (2 * zr * zi + ci) (iter + 1)
      omega
    · simp

theorem escapeLoop_escaped (cr ci : ℚ) :
    ∀ (fuel : ℕ) (zr zi : ℚ) (iter : ℕ),
      (escapeLoop cr ci zr zi iter fuel).1 ≠ iter + fuel →
      4 ≤ finalMagSq (escapeLoop cr ci zr zi iter fuel) := by
  intro fuel
  induction fuel with
  | zero => intro zr zi iter h; simp [escapeLoop] at h
  | succ f ih =>
    intro zr zi iter h
    rw [escapeLoop] at h ⊢
    by_cases hlt : zr * zr + zi * zi < 4
    · rw [if_pos hlt] at h ⊢
      exact ih _ _ (iter + 1) (by omega)
    · rw [if_neg hlt]
      simpa [finalMagSq] using not_lt.mp hlt

theorem escapeIter_fst_le (jm : Bool) (pr pi jr ji : ℚ) (n : ℕ) :
    (escapeIter jm pr pi jr ji n).1 ≤ n := by
  cases jm <;>
    simpa [escapeIter, mandelbrotIter, juliaIter] using
      escapeLoop_fst_le _ _ n _ _ 0

theorem escapeIter_escaped (jm : Bool) (pr pi jr ji : ℚ) (n : ℕ)
    (h : (escapeIter jm pr pi jr ji n).1 ≠ n) :
    4 ≤ finalMagSq (escapeIter jm pr pi jr ji n) := by
  cases jm <;>
    [exact escapeLoop_escaped pr pi n 0 0 0 (by simpa [escapeIter, mandelbrotIter] using h);
     exact escapeLoop_escaped jr ji n pr pi 0 (by simpa [escapeIter, juliaIter] using h)]

theorem escape_eq (jm : Bool) (pr pi jr ji : ℚ) (n : ℕ) :
    escape jm pr pi jr ji n =
      if (escapeIter jm pr pi jr ji n).1 = n then (n : ℝ)
      else smoothValue (escapeIter jm pr pi jr ji n).1
        ((finalMagSq (escapeIter jm pr pi jr ji n) : ℚ) : ℝ) := by
  cases jm <;> simp [escape, escapeIter, mandelbrot, julia]

theorem two_log_two_pos : (0 : ℝ) < Real.log 2 :=
  Real.log_pos (by norm_num)

theorem smooth_arg_ge_one {m : ℝ} (hm : 4 ≤ m) :
    1 ≤ Real.log m / 2 / Real.log 2 := by
  have h4 : Real.log 4 ≤ Real.log m := Real.log_le_log (by norm_num) hm
  have hlog4 : Real.log 4 = 2 * Real.log 2 := by
    rw [show (4 : ℝ) = 2 ^ 2 by norm_num, Real.log_pow]
    norm_num
  rw [le_div_iff₀ two_log_two_pos, one_mul, le_div_iff₀ (by norm_num : (0:ℝ) < 2)]
  linarith

theorem smooth_arg_gt_one {m : ℝ} (hm : 4 < m) :
    1 < Real.log m / 2 / Real.log 2 := by
  have h4 : Real.log 4 < Real.log m := Real.log_lt_log (by norm_num) hm
  have hlog4 : Real.log 4 = 2 * Real.log 2 := by
    rw [show (4 : ℝ) = 2 ^ 2 by norm_num, Real.log_pow]
    norm_num
  rw [lt_div_iff₀ two_log_two_pos, one_mul, lt_div_iff₀ (by norm_num : (0:ℝ) < 2)]
  linarith

theorem smooth_arg_le_two {m : ℝ} (hm4 : 4 ≤ m) (hm16 : m ≤ 16) :
    Real.log m / 2 / Real.log 2 ≤ 2 := by
  have h16 : Real.log m ≤ Real.log 16 := Real.log_le_log (by linarith) hm16
  have hlog16 : Real.log 16 = 4 * Real.log 2 := by
    rw [show (16 : ℝ) = 2 ^ 4 by norm_num, Real.log_pow]
    norm_num
  rw [div_le_iff₀ two_log_two_pos, div_le_iff₀ (by norm_num : (0:ℝ) < 2)]
  linarith

theorem smoothValue_le_succ (n : ℕ) {m : ℝ} (hm : 4 ≤ m) :
    smoothValue n m ≤ (n : ℝ) + 1 := by
  have hnu : 0 ≤ Real.log (Real.log m / 2 / Real.log 2) / Real.log 2 :=
    div_nonneg (Real.log_nonneg (smooth_arg_ge_one hm)) two_log_two_pos.le
  simp only [smoothValue]
  linarith

theorem smoothValue_lt_succ (n : ℕ) {m : ℝ} (hm : 4 < m) :
    smoothValue n m < (n : ℝ) + 1 := by
  have hnu : 0 < Real.log (Real.log m / 2 / Real.log 2) / Real.log 2 :=
    div_pos (Real.log_pos (smooth_arg_gt_one hm)) two_log_two_pos
  simp only [smoothValue]
  linarith

theorem le_smoothValue (n : ℕ) {m : ℝ} (hm4 : 4 ≤ m) (hm16 : m ≤ 16) :
    (n : ℝ) ≤ smoothValue n m := by
  have harg : Real.log (Real.log m / 2 / Real.log 2) ≤ Real.log 2 :=
    Real.log_le_log (by linarith [smooth_arg_ge_one hm4])
      (smooth_arg_le_two hm4 hm16)
  have hnu : Real.log (Real.log m / 2 / Real.log 2) / Real.log 2 ≤ 1 :=
    (div_le_one two_log_two_pos).mpr harg
  simp only [smoothValue]
  linarith

theorem smoothValue_eq_succ_iff (n : ℕ) {m : ℝ} (hm : 4 ≤ m) :
    smoothValue n m = (n : ℝ) + 1 ↔ m = 4 := by
  constructor
  · intro h
    have hnu : Real.log (Real.log m / 2 / Real.log 2) / Real.log 2 = 0 := by
      simp only [smoothValue] at h
      linarith
    have hlogA : Real.log (Real.log m / 2 / Real.log 2) = 0 := by
      rcases div_eq_zero_iff.mp hnu with h' | h'
      · exact h'
      · exact absurd h' two_log_two_pos.ne'
    have hA : Real.log m / 2 / Real.log 2 = 1 :=
      Real.eq_one_of_pos_of_log_eq_zero (by linarith [smooth_arg_ge_one hm]) hlogA
    have hlogm : Real.log m = Real.log 4 := by
      have hlog4 : Real.log 4 = 2 * Real.log 2 := by
        rw [show (4 : ℝ) = 2 ^ 2 by norm_num, Real.log_pow]
        norm_num
      field_simp at hA
      linarith
    calc m = Real.exp (Real.log m) := (Real.exp_log (by linarith)).symm
    _ = Real.exp (Real.log 4) := by rw [hlogm]
    _ = 4 := Real.exp_log (by norm_num)
  · intro h
    subst h
    have hlog4 : Real.log 4 = 2 * Real.log 2 := by
      rw [show (4 : ℝ) = 2 ^ 2 by norm_num, Real.log_pow]
      norm_num
    have hA : Real.log 4 / 2 / Real.log 2 = 1 := by
      rw [hlog4]
      field_simp
    simp only [smoothValue, hA, Real.log_one, zero_div, sub_zero]

end Choas

namespace Choas

theorem escapeLoop_step (cr ci zr zi : ℚ) (iter f : ℕ) (h : zr * zr + zi * zi < 4) :
    escapeLoop cr ci zr zi iter (f + 1) =
      escapeLoop cr ci (zr * zr - zi * zi + cr) (2 * zr * zi + ci) (iter + 1) f := by
  rw [escapeLoop, if_pos h]

theorem escapeLoop_stop (cr ci zr zi : ℚ) (iter f : ℕ) (h : ¬ zr * zr + zi * zi < 4) :
    escapeLoop cr ci zr zi iter (f + 1) = (iter, zr, zi) := by
  rw [escapeLoop, if_neg h]

theorem mandelbrotIter_256_0_100 : mandelbrotIter 256 0 100 = (1, 256, 0) := by
  rw [mandelbrotIter, show (100 : ℕ) = 99 + 1 from rfl,
    escapeLoop_step _ _ _ _ _ _ (by norm_num)]
  norm_num
  rw [show (99 : ℕ) = 98 + 1 from rfl, escapeLoop_stop _ _ _ _ _ _ (by norm_num)]

theorem mandelbrotIter_2_0_2 : mandelbrotIter 2 0 2 = (1, 2, 0) := by
  rw [mandelbrotIter, show (2 : ℕ) = 1 + 1 from rfl,
    escapeLoop_step _ _ _ _ _ _ (by norm_num)]
  norm_num
  rw [show (1 : ℕ) = 0 + 1 from rfl, escapeLoop_stop _ _ _ _ _ _ (by norm_num)]

theorem mandelbrotIter_2_0_3 : mandelbrotIter 2 0 3 = (1, 2, 0) := by
  rw [mandelbrotIter, show (3 : ℕ) = 2 + 1 from rfl,
    escapeLoop_step _ _ _ _ _ _ (by norm_num)]
  norm_num
  rw [show (2 : ℕ) = 1 + 1 from rfl, escapeLoop_stop _ _ _ _ _ _ (by norm_num)]

theorem mandelbrotIter_3_0_5 : mandelbrotIter 3 0 5 = (1, 3, 0) := by
  rw [mandelbrotIter, show (5 : ℕ) = 4 + 1 from rfl,
    escapeLoop_step _ _ _ _ _ _ (by norm_num)]
  norm_num
  rw [show (4 : ℕ) = 3 + 1 from rfl, escapeLoop_stop _ _ _ _ _ _ (by norm_num)]

theorem mandelbrotIter_1_2_4 : mandelbrotIter 1 2 4 = (1, 1, 2) := by
  rw [mandelbrotIter, show (4 : ℕ) = 3 + 1 from rfl,
    escapeLoop_step _ _ _ _ _ _ (by norm_num)]
  norm_num
  rw [show (3 : ℕ) = 2 + 1 from rfl, escapeLoop_stop _ _ _ _ _ _ (by norm_num)]

theorem mandelbrot_eq (cr ci : ℚ) (n : ℕ) :
    mandelbrot cr ci n =
      if (mandelbrotIter cr ci n).1 = n then (n : ℝ)
      else smoothValue (mandelbrotIter cr ci n).1
        ((finalMagSq (mandelbrotIter cr ci n) : ℚ) : ℝ) := rfl

theorem smoothValue_one_65536 : smoothValue 1 65536 = -1 := by
  have h1 : Real.log 65536 = 16 * Real.log 2 := by
    rw [show (65536 : ℝ) = 2 ^ 16 by norm_num, Real.log_pow]
    norm_num
  have h2 : Real.log 65536 / 2 / Real.log 2 = 8 := by
    rw [h1]; field_simp; ring
  have h3 : Real.log 8 = 3 * Real.log 2 := by
    rw [show (8 : ℝ) = 2 ^ 3 by norm_num, Real.log_pow]
    norm_num
  have h4 : 3 * Real.log 2 / Real.log 2 = 3 := by
    field_simp
  simp only [smoothValue, h2, h3, h4]
  norm_num

theorem smoothValue_one_4 : smoothValue 1 4 = 2 := by
  have := (smoothValue_eq_succ_iff 1 (le_refl (4 : ℝ))).mpr rfl
  rw [this]; norm_num

/-- Counterexample to C1.  At `c = (256, 0)` the loop escapes after one
iteration with `|z|² = 65536`, and the smooth value is `-1`, outside
`[0, maxIter]`.  At `c = (2, 0)` with `maxIter = 2` the loop escapes after
one iteration with `|z|² = 4` exactly, and the smooth value is `2 = maxIter`
even though the cap was not reached, breaking the claimed iff. -/
theorem c1_counterexample :
    ((mandelbrotIter 256 0 100).1 = 1 ∧ mandelbrot 256 0 100 = -1) ∧
    ((mandelbrotIter 2 0 2).1 = 1 ∧ mandelbrot 2 0 2 = 2) := by
  refine ⟨⟨by rw [mandelbrotIter_256_0_100], ?_⟩,
    ⟨by rw [mandelbrotIter_2_0_2], ?_⟩⟩
  · rw [mandelbrot_eq, mandelbrotIter_256_0_100]
    norm_num [finalMagSq]
    exact smoothValue_one_65536
  · rw [mandelbrot_eq, mandelbrotIter_2_0_2]
    norm_num [finalMagSq]
    exact smoothValue_one_4

/-- C1 (amended): for every input the escape kernel returns a value that is
at most `maxIter`; the value equals `maxIter` exactly when the loop reached
the cap (final count `= maxIter`), or when it escaped at count
`maxIter - 1` with final magnitude-squared exactly `4`; and the value is
bounded below by the integer escape count (hence nonnegative) whenever the
final magnitude-squared is at most `16`. -/
theorem c1_amended (jm : Bool) (pr pi jr ji : ℚ) (n : ℕ) :
    escape jm pr pi jr ji n ≤ (n : ℝ) ∧
    (escape jm pr pi jr ji n = (n : ℝ) ↔
      (escapeIter jm pr pi jr ji n).1 = n ∨
      ((escapeIter jm pr pi jr ji n).1 + 1 = n ∧
        finalMagSq (escapeIter jm pr pi jr ji n) = 4)) ∧
    (finalMagSq (escapeIter jm pr pi jr ji n) ≤ 16 →
      ((escapeIter jm pr pi jr ji n).1 : ℝ) ≤ escape jm pr pi jr ji n) := by
  by_cases hc : (escapeIter jm pr pi jr ji n).1 = n
  · rw [escape_eq, if_pos hc]
    exact ⟨le_refl _, by simp [hc], fun _ => by rw [hc]⟩
  · have hesc : 4 ≤ finalMagSq (escapeIter jm pr pi jr ji n) :=
      escapeIter_escaped jm pr pi jr ji n hc
    have hlt : (escapeIter jm pr pi jr ji n).1 < n :=
      lt_of_le_of_ne (escapeIter_fst_le jm pr pi jr ji n) hc
    have hmr : (4 : ℝ) ≤ ((finalMagSq (escapeIter jm pr pi jr ji n) : ℚ) : ℝ) := by
      exact_mod_cast hesc
    rw [escape_eq, if_neg hc]
    have hsucc : ((escapeIter jm pr pi jr ji n).1 : ℝ) + 1 ≤ (n : ℝ) := by
      exact_mod_cast hlt
    refine ⟨le_trans (smoothValue_le_succ _ hmr) hsucc, ?_, ?_⟩
    · constructor
      · intro h
        have hle := smoothValue_le_succ (escapeIter jm pr pi jr ji n).1 hmr
        have heqsucc : ((escapeIter jm pr pi jr ji n).1 : ℝ) + 1 = (n : ℝ) := by
          linarith [hle, hsucc, h.ge, h.le]
        have heqn : (escapeIter jm pr pi jr ji n).1 + 1 = n := by
          exact_mod_cast heqsucc
        refine Or.inr ⟨heqn, ?_⟩
        have heq1 : smoothValue (escapeIter jm pr pi jr ji n).1
            ((finalMagSq (escapeIter jm pr pi jr ji n) : ℚ) : ℝ) =
            ((escapeIter jm pr pi jr ji n).1 : ℝ) + 1 := by rw [h, heqsucc]
        have hm4 := (smoothValue_eq_succ_iff _ hmr).mp heq1
        exact_mod_cast hm4
      · rintro (h | ⟨h1, h2⟩)
        · exact absurd h hc
        · have hm4 : ((finalMagSq (escapeIter jm pr pi jr ji n) : ℚ) : ℝ) = 4 := by
            exact_mod_cast h2
          rw [(smoothValue_eq_succ_iff _ hmr).mpr hm4]
          exact_mod_cast h1
    · intro h16
      have h16r : ((finalMagSq (escapeIter jm pr pi jr ji n) : ℚ) : ℝ) ≤ 16 := by
        exact_mod_cast h16
      exact le_smoothValue _ hmr h16r

theorem c1_amended_witness :
    escape false 1 2 0 0 4 ≤ (4 : ℝ) ∧
    (escape false 1 2 0 0 4 = (4 : ℝ) ↔
      (escapeIter false 1 2 0 0 4).1 = 4 ∨
      ((escapeIter false 1 2 0 0 4).1 + 1 = 4 ∧
        finalMagSq (escapeIter false 1 2 0 0 4) = 4)) ∧
    (finalMagSq (escapeIter false 1 2 0 0 4) ≤ 16 →
      ((escapeIter false 1 2 0 0 4).1 : ℝ) ≤ escape false 1 2 0 0 4) :=
  c1_amended false 1 2 0 0 4

/-- Counterexample to C2.  At `c = (2, 0)` with `maxIter = 3` the kernel
escapes at integer count `n = 1` with final magnitude-squared exactly `4`,
and the smooth value is `2 = n + 1`, which is not `< n + 1`, so the value
falls outside the claimed half-open interval `[n, n+1)`. -/
theorem c2_counterexample :
    (mandelbrotIter 2 0 3).1 = 1 ∧ (mandelbrotIter 2 0 3).1 ≠ 3 ∧
    4 ≤ finalMagSq (mandelbrotIter 2 0 3) ∧
    ¬ mandelbrot 2 0 3 < ((mandelbrotIter 2 0 3).1 : ℝ) + 1 := by
  have hval : mandelbrot 2 0 3 = 2 := by
    rw [mandelbrot_eq, mandelbrotIter_2_0_3]
    norm_num [finalMagSq]
    exact smoothValue_one_4
  refine ⟨by rw [mandelbrotIter_2_0_3], by rw [mandelbrotIter_2_0_3]; norm_num,
    by rw [mandelbrotIter_2_0_3]; norm_num [finalMagSq], ?_⟩
  rw [hval, mandelbrotIter_2_0_3]
  norm_num

/-- C2 (amended): if the kernel escapes at integer count `n` with final
magnitude-squared `m` satisfying `4 < m ≤ 16`, then the smooth value
`n + 1 - log2(log(m)/2 / log(2))` lies in `[n, n+1)`.  (At an exact
boundary escape, `m = 4`, the value equals `n + 1`, and for `m > 16` —
possible for far-away points whose final step overshoots — it drops
below `n`.) -/
theorem c2_amended (jm : Bool) (pr pi jr ji : ℚ) (n : ℕ)
    (h1 : (escapeIter jm pr pi jr ji n).1 ≠ n)
    (h2 : 4 < finalMagSq (escapeIter jm pr pi jr ji n))
    (h3 : finalMagSq (escapeIter jm pr pi jr ji n) ≤ 16) :
    ((escapeIter jm pr pi jr ji n).1 : ℝ) ≤ escape jm pr pi jr ji n ∧
    escape jm pr pi jr ji n < ((escapeIter jm pr pi jr ji n).1 : ℝ) + 1 := by
  have h2r : (4 : ℝ) < ((finalMagSq (escapeIter jm pr pi jr ji n) : ℚ) : ℝ) := by
    exact_mod_cast h2
  have h3r : ((finalMagSq (escapeIter jm pr pi jr ji n) : ℚ) : ℝ) ≤ 16 := by
    exact_mod_cast h3
  rw [escape_eq, if_neg h1]
  exact ⟨le_smoothValue _ h2r.le h3r, smoothValue_lt_succ _ h2r⟩

theorem c2_amended_witness :
    ((escapeIter false 3 0 0 0 5).1 : ℝ) ≤ escape false 3 0 0 0 5 ∧
    escape false 3 0 0 0 5 < ((escapeIter false 3 0 0 0 5).1 : ℝ) + 1 :=
  c2_amended false 3 0 0 0 5
    (by simp [escapeIter, mandelbrotIter_3_0_5])
    (by simp [escapeIter, mandelbrotIter_3_0_5]; norm_num [finalMagSq])
    (by simp [escapeIter, mandelbrotIter_3_0_5]; norm_num [finalMagSq])

/-- C4: in the real-number semantics of the embedding the smooth formula is
evaluated only on the escape path, where the loop exit condition guarantees
the final magnitude-squared is at least `4` — strictly above any small
positive floor — so the argument of the inner logarithm is positive and the
argument of the outer logarithm is at least `1`; no logarithm is ever taken
of a non-positive quantity (the float `NaN`/`-Infinity` hazard), and on the
cap path the kernel returns the integer iteration count. -/
theorem c4_theorem (jm : Bool) (pr pi jr ji : ℚ) (n : ℕ) :
    ((escapeIter jm pr pi jr ji n).1 = n ∧ escape jm pr pi jr ji n = (n : ℝ)) ∨
    (4 ≤ finalMagSq (escapeIter jm pr pi jr ji n) ∧
      1 ≤ Real.log ((finalMagSq (escapeIter jm pr pi jr ji n) : ℚ) : ℝ) / 2 /
        Real.log 2 ∧
      escape jm pr pi jr ji n =
        smoothValue (escapeIter jm pr pi jr ji n).1
          ((finalMagSq (escapeIter jm pr pi jr ji n) : ℚ) : ℝ)) := by
  by_cases hc : (escapeIter jm pr pi jr ji n).1 = n
  · exact Or.inl ⟨hc, by rw [escape_eq, if_pos hc]⟩
  · have hesc : 4 ≤ finalMagSq (escapeIter jm pr pi jr ji n) :=
      escapeIter_escaped jm pr pi jr ji n hc
    have hmr : (4 : ℝ) ≤ ((finalMagSq (escapeIter jm pr pi jr ji n) : ℚ) : ℝ) := by
      exact_mod_cast hesc
    exact Or.inr ⟨hesc, smooth_arg_ge_one hmr, by rw [escape_eq, if_neg hc]⟩

end Choas

namespace Choas

theorem startAnimation_zoom (rand : ℕ → ℚ) (s : ExplorerState) :
    (startAnimation rand s).zoom = s.zoom := by
  simp only [startAnimation, apply_ite ExplorerState.zoom, ite_self]

theorem startAnimation_maxIter (rand : ℕ → ℚ) (s : ExplorerState) :
    (startAnimation rand s).maxIter = s.maxIter := by
  simp only [startAnimation, apply_ite ExplorerState.maxIter, ite_self]

theorem startAnimation_bookmarks (rand : ℕ → ℚ) (s : ExplorerState) :
    (startAnimation rand s).bookmarks = s.bookmarks := by
  simp only [startAnimation, apply_ite ExplorerState.bookmarks, ite_self]

theorem startAnimation_juliaC (rand : ℕ → ℚ) (s : ExplorerState) :
    (startAnimation rand s).juliaC = s.juliaC := by
  simp only [startAnimation, apply_ite ExplorerState.juliaC, ite_self]

theorem stopAnimation_juliaC (s : ExplorerState) :
    (stopAnimation s).juliaC = s.juliaC := by
  simp only [stopAnimation, apply_ite ExplorerState.juliaC, ite_self]

theorem animationTick_zoom (rand : ℕ → ℚ) (s : ExplorerState) :
    (animationTick rand s).zoom =
      if s.zoom < (if s.juliaMode = true then 50 else 10000) then s.zoom * 1.01
      else s.zoom := by
  simp only [animationTick, apply_ite ExplorerState.zoom, ite_self]

theorem animationTick_maxIter (rand : ℕ → ℚ) (s : ExplorerState) :
    (animationTick rand s).maxIter =
      min 1000 (100 +
        ⌊(if s.zoom < (if s.juliaMode = true then 50 else 10000) then s.zoom * 1.01
          else s.zoom) * 10⌋) := by
  simp only [animationTick, apply_ite ExplorerState.maxIter,
    apply_ite ExplorerState.zoom, ite_self]

theorem animationTick_juliaMode (rand : ℕ → ℚ) (s : ExplorerState) :
    (animationTick rand s).juliaMode = s.juliaMode := by
  simp only [animationTick, apply_ite ExplorerState.juliaMode, ite_self]

theorem animationTick_bookmarks (rand : ℕ → ℚ) (s : ExplorerState) :
    (animationTick rand s).bookmarks = s.bookmarks := by
  simp only [animationTick, apply_ite ExplorerState.bookmarks, ite_self]

theorem animationTick_juliaC (rand : ℕ → ℚ) (s : ExplorerState) :
    (animationTick rand s).juliaC = s.juliaC := by
  simp only [animationTick, apply_ite ExplorerState.juliaC, ite_self]

theorem handleKeypress_juliaC (k : Key) (s : ExplorerState) :
    (handleKeypress k s).juliaC = s.juliaC := by
  by_cases hh : s.showHelp = true
  · simp [handleKeypress, hh]
  · cases k
    all_goals
      try (simp [handleKeypress, hh, startAnimation_juliaC, stopAnimation_juliaC,
        apply_ite ExplorerState.juliaC, ite_self]; done)
    rename_i d
    cases hbk : s.bookmarks d <;> simp [handleKeypress, hh, hbk]

theorem goodState_handleKeypress (k : Key) (s : ExplorerState) (h : GoodState s) :
    GoodState (handleKeypress k s) := by
  obtain ⟨hz, hm1, hm2, hb⟩ := h
  have hz0 : (0 : ℚ) ≤ s.zoom := by linarith
  by_cases hh : s.showHelp = true
  · rw [show handleKeypress k s = { s with showHelp := false } from by
      simp [handleKeypress, hh]]
    exact ⟨hz, hm1, hm2, hb⟩
  · unfold handleKeypress
    dsimp only
    rw [if_neg hh]
    cases k
    -- up
    · exact ⟨hz, hm1, hm2, hb⟩
    -- down
    · exact ⟨hz, hm1, hm2, hb⟩
    -- left
    · exact ⟨hz, hm1, hm2, hb⟩
    -- right
    · exact ⟨hz, hm1, hm2, hb⟩
    -- zoomIn
    · refine ⟨?_, hm1, hm2, hb⟩
      show (0.1 : ℚ) ≤ s.zoom * 1.5
      linarith
    -- zoomOut
    · exact ⟨le_max_left _ _, hm1, hm2, hb⟩
    -- animate
    · exact ⟨by rw [startAnimation_zoom]; exact hz,
        by rw [startAnimation_maxIter]; exact hm1,
        by rw [startAnimation_maxIter]; exact hm2,
        by rw [startAnimation_bookmarks]; exact hb⟩
    -- toggleJulia
    · dsimp only
      split <;> exact ⟨by norm_num, hm1, hm2, hb⟩
    -- cycleColor
    · exact ⟨hz, hm1, hm2, hb⟩
    -- depthDown
    · exact ⟨hz, le_max_left _ _, max_le (by norm_num) (by omega), hb⟩
    -- depthUp
    · exact ⟨hz, le_min (by norm_num) (by omega), min_le_left _ _, hb⟩
    -- reset
    · exact ⟨by norm_num, by norm_num, by norm_num, hb⟩
    -- crosshair
    · exact ⟨hz, hm1, hm2, hb⟩
    -- help
    · exact ⟨hz, hm1, hm2, hb⟩
    -- screenshot
    · exact ⟨hz, hm1, hm2, hb⟩
    -- digit
    · rename_i d
      dsimp only
      cases hbk : s.bookmarks d with
      | none => exact ⟨hz, hm1, hm2, hb⟩
      | some b => exact ⟨hb d b hbk, hm1, hm2, hb⟩
    -- shiftDigit
    · rename_i d
      dsimp only
      refine ⟨hz, hm1, hm2, ?_⟩
      intro d' b' h'
      dsimp only at h'
      by_cases hd : d' = d
      · subst hd
        rw [Function.update_same] at h'
        injection h' with h''
        subst h''
        exact hz
      · rw [Function.update_noteq hd] at h'
        exact hb d' b' h'
    -- enter
    · dsimp only
      unfold stopAnimation
      split <;> exact ⟨hz, hm1, hm2, hb⟩
    -- quit
    · dsimp only
      unfold stopAnimation
      split <;> exact ⟨hz, hm1, hm2, hb⟩
    -- mouse
    · dsimp only
      split <;> exact ⟨hz, hm1, hm2, hb⟩
    -- other
    · exact ⟨hz, hm1, hm2, hb⟩

theorem goodState_animationTick (rand : ℕ → ℚ) (s : ExplorerState)
    (h : GoodState s) : GoodState (animationTick rand s) := by
  obtain ⟨hz, hm1, hm2, hb⟩ := h
  have hz0 : (0 : ℚ) ≤ s.zoom := by linarith
  have hzoom : (0.1 : ℚ) ≤ (animationTick rand s).zoom := by
    rw [animationTick_zoom]
    split_ifs
    · nlinarith
    · exact hz
    · nlinarith
    · exact hz
  have hmeq : (animationTick rand s).maxIter =
      min 1000 (100 + ⌊(animationTick rand s).zoom * 10⌋) := by
    rw [animationTick_maxIter, ← animationTick_zoom rand s]
  have hfl : (1 : ℤ) ≤ ⌊(animationTick rand s).zoom * 10⌋ := by
    rw [Int.le_floor]
    push_cast
    linarith
  refine ⟨hzoom, ?_, ?_, ?_⟩
  · rw [hmeq]; omega
  · rw [hmeq]; omega
  · rw [animationTick_bookmarks]; exact hb

theorem reachable_goodState (s : ExplorerState) (h : Reachable s) : GoodState s := by
  induction h with
  | init =>
    refine ⟨by norm_num [initState], by norm_num [initState],
      by norm_num [initState], ?_⟩
    intro d b hb
    simp [initState] at hb
  | step k s hr ih => exact goodState_handleKeypress k s ih
  | tick rand s hr ih => exact goodState_animationTick rand s ih

/-- C5: every state reachable from start-up through any sequence of key
events and animation ticks satisfies the viewport invariants
`zoom >= 0.1` and `50 <= maxIter <= 1000`; in particular any run of
consecutive zoom-out events keeps `zoom >= 0.1` and any run of depth-adjust
events keeps `maxIter` in `[50, 1000]`. -/
theorem c5_invariants (s : ExplorerState) (h : Reachable s) :
    0.1 ≤ s.zoom ∧ 50 ≤ s.maxIter ∧ s.maxIter ≤ 1000 :=
  let g := reachable_goodState s h
  ⟨g.1, g.2.1, g.2.2.1⟩

theorem c5_invariants_witness :
    0.1 ≤ (handleKeypress Key.zoomOut initState).zoom ∧
    50 ≤ (handleKeypress Key.zoomOut initState).maxIter ∧
    (handleKeypress Key.zoomOut initState).maxIter ≤ 1000 :=
  c5_invariants (handleKeypress Key.zoomOut initState)
    (Reachable.step Key.zoomOut initState Reachable.init)

/-- C9: any key event received while the help overlay is shown only clears
the help flag; center, zoom, maxIter, family, palette index, crosshair
flag, bookmarks, the Julia parameter and the animation state are all
untouched (the resulting state is the old one with `showHelp := false`). -/
theorem c9_help_swallows (k : Key) (s : ExplorerState) (h : s.showHelp = true) :
    handleKeypress k s = { s with showHelp := false } := by
  simp [handleKeypress, h]

theorem c9_help_swallows_witness :
    handleKeypress Key.zoomIn { initState with showHelp := true } =
      { { initState with showHelp := true } with showHelp := false } :=
  c9_help_swallows Key.zoomIn { initState with showHelp := true } rfl

/-- C10: the Julia parameter is a session-lifetime constant: it starts at
`(-0.7, 0.27015)` and no key event (including reset and family toggles) and
no animation tick ever changes it, so every Julia-mode render dispatch uses
exactly this parameter. -/
theorem c10_juliaC_constant :
    initState.juliaC = (-0.7, 0.27015) ∧
    (∀ (k : Key) (s : ExplorerState), (handleKeypress k s).juliaC = s.juliaC) ∧
    (∀ (rand : ℕ → ℚ) (s : ExplorerState),
      (animationTick rand s).juliaC = s.juliaC) :=
  ⟨rfl, handleKeypress_juliaC, animationTick_juliaC⟩

end Choas

namespace Choas

theorem animationTick_zoom_le (rand : ℕ → ℚ) (s : ExplorerState) :
    (animationTick rand s).zoom ≤
      max s.zoom ((if s.juliaMode = true then 50 else 10000) * 1.01) := by
  cases hj : s.juliaMode <;>
    simp only [animationTick_zoom, hj, Bool.false_eq_true, if_false, if_true] <;>
    split_ifs with h1
  · exact le_max_of_le_right (mul_le_mul_of_nonneg_right h1.le (by norm_num))
  · exact le_max_left _ _
  · exact le_max_of_le_right (mul_le_mul_of_nonneg_right h1.le (by norm_num))
  · exact le_max_left _ _

theorem iterTick_zoom_le (rands : ℕ → ℕ → ℚ) (n : ℕ) (s : ExplorerState) :
    (iterTick rands n s).zoom ≤
      max s.zoom ((if s.juliaMode = true then 50 else 10000) * 1.01) := by
  induction n generalizing s with
  | zero => exact le_max_left _ _
  | succ m ih =>
    rw [iterTick]
    have h1 := ih (animationTick (rands m) s)
    rw [animationTick_juliaMode] at h1
    exact h1.trans (max_le (animationTick_zoom_le (rands m) s) (le_max_right _ _))

/-- C6 (amended): a tick multiplies zoom by 1.01 only while zoom is strictly
below the family cap (50 in Julia mode, 10000 in Mandelbrot mode) and
otherwise leaves it unchanged; consequently any number of ticks never drives
zoom above `max (starting zoom) (cap * 1.01)`.  The cap itself can be
exceeded: the last multiplication may overshoot by up to 1%, and manual
zoom-in events are uncapped, so reachable animating states can already sit
above the cap — ticks then leave such a zoom unchanged rather than clamping
it. -/
theorem c6_amended :
    (∀ (rand : ℕ → ℚ) (s : ExplorerState),
      (animationTick rand s).zoom =
        if s.zoom < (if s.juliaMode = true then 50 else 10000) then s.zoom * 1.01
        else s.zoom) ∧
    (∀ (rands : ℕ → ℕ → ℚ) (n : ℕ) (s : ExplorerState),
      (iterTick rands n s).zoom ≤
        max s.zoom ((if s.juliaMode = true then 50 else 10000) * 1.01)) :=
  ⟨animationTick_zoom, iterTick_zoom_le⟩

theorem overCapJulia_eq :
    overCapJulia =
      { centerX := 0, centerY := 0, zoom := 59049 / 1024, maxIter := 100,
        animating := true, juliaMode := true, juliaC := (-0.7, 0.27015),
        colorSchemeIndex := 0, bookmarks := fun _ => none,
        showCrosshair := false, showHelp := false, speedIndex := 3,
        targetPoint := (-0.25, -0.25) } := by
  norm_num [overCapJulia, List.foldl, handleKeypress, startAnimation, initState]

/-- Counterexample to C6.  The state `overCapJulia` is reachable (toggle to
Julia, ten zoom-in keys, start animation), is animating in Julia mode, and
already has zoom `(3/2)^10 = 59049/1024 > 50` because the manual zoom key is
uncapped; an animation tick leaves that zoom unchanged, so the zoom after a
tick still exceeds the Julia cap of 50, contradicting the claim that ticks
keep zoom at or below the family cap. -/
theorem c6_counterexample :
    overCapJulia.juliaMode = true ∧ overCapJulia.animating = true ∧
    Reachable overCapJulia ∧
    (50 : ℚ) < (animationTick (fun _ => 0) overCapJulia).zoom := by
  refine ⟨by rw [overCapJulia_eq], by rw [overCapJulia_eq], ?_, ?_⟩
  · simp only [overCapJulia, List.foldl_cons, List.foldl_nil]
    exact Reachable.step _ _ (Reachable.step _ _ (Reachable.step _ _
      (Reachable.step _ _ (Reachable.step _ _ (Reachable.step _ _
      (Reachable.step _ _ (Reachable.step _ _ (Reachable.step _ _
      (Reachable.step _ _ (Reachable.step _ _ (Reachable.step _ _
      Reachable.init)))))))))))
  · rw [animationTick_zoom, overCapJulia_eq]
    norm_num

theorem handleKeypress_recall (s : ExplorerState) (d : ℕ) (b : Bookmark)
    (hh : s.showHelp = false) (hbk : s.bookmarks d = some b) :
    handleKeypress (Key.digit d) s =
      { s with centerX := b.x, centerY := b.y, zoom := b.zoom } := by
  simp [handleKeypress, hh, hbk]

theorem c7_key_preserves (k : Key) (s : ExplorerState) (hh : s.showHelp = false)
    (hk : k = Key.depthDown ∨ k = Key.depthUp ∨ k = Key.cycleColor) :
    (handleKeypress k s).bookmarks = s.bookmarks ∧
    (handleKeypress k s).showHelp = false := by
  rcases hk with rfl | rfl | rfl <;> simp [handleKeypress, hh]

theorem c7_foldl_preserves (L : List Key) (s : ExplorerState)
    (hh : s.showHelp = false)
    (hL : ∀ k ∈ L, k = Key.depthDown ∨ k = Key.depthUp ∨ k = Key.cycleColor) :
    (List.foldl (fun t k => handleKeypress k t) s L).bookmarks = s.bookmarks ∧
    (List.foldl (fun t k => handleKeypress k t) s L).showHelp = false := by
  induction L generalizing s with
  | nil => exact ⟨rfl, hh⟩
  | cons a l ih =>
    have ha := c7_key_preserves a s hh (hL a (by simp))
    rw [List.foldl_cons]
    have hrest := ih (handleKeypress a s) ha.2 (fun k hk => hL k (by simp [hk]))
    exact ⟨hrest.1.trans ha.1, hrest.2⟩

/-- C7: saving a bookmark to a slot, then applying any number of iteration
depth or palette-cycle events, then recalling the slot restores center and
zoom exactly (those events touch neither the bookmark map nor the help
flag, and recall copies the stored rationals back verbatim). -/
theorem c7_bookmark_roundtrip (s : ExplorerState) (d : ℕ) (L : List Key)
    (hh : s.showHelp = false)
    (hL : ∀ k ∈ L, k = Key.depthDown ∨ k = Key.depthUp ∨ k = Key.cycleColor) :
    ((handleKeypress (Key.digit d)
        (List.foldl (fun t k => handleKeypress k t)
          (handleKeypress (Key.shiftDigit d) s) L)).centerX,
     (handleKeypress (Key.digit d)
        (List.foldl (fun t k => handleKeypress k t)
          (handleKeypress (Key.shiftDigit d) s) L)).centerY,
     (handleKeypress (Key.digit d)
        (List.foldl (fun t k => handleKeypress k t)
          (handleKeypress (Key.shiftDigit d) s) L)).zoom) =
      (s.centerX, s.centerY, s.zoom) := by
  have hb1 : (handleKeypress (Key.shiftDigit d) s).bookmarks =
      Function.update s.bookmarks d (some ⟨s.centerX, s.centerY, s.zoom⟩) := by
    simp [handleKeypress, hh]
  have hh1 : (handleKeypress (Key.shiftDigit d) s).showHelp = false := by
    simp [handleKeypress, hh]
  have h2 := c7_foldl_preserves L (handleKeypress (Key.shiftDigit d) s) hh1 hL
  have hlook : (List.foldl (fun t k => handleKeypress k t)
      (handleKeypress (Key.shiftDigit d) s) L).bookmarks d =
      some ⟨s.centerX, s.centerY, s.zoom⟩ := by
    rw [h2.1, hb1, Function.update_same]
  rw [handleKeypress_recall _ d _ h2.2 hlook]

theorem c7_bookmark_roundtrip_witness :
    ((handleKeypress (Key.digit 3)
        (List.foldl (fun t k => handleKeypress k t)
          (handleKeypress (Key.shiftDigit 3) initState) [Key.depthUp])).centerX,
     (handleKeypress (Key.digit 3)
        (List.foldl (fun t k => handleKeypress k t)
          (handleKeypress (Key.shiftDigit 3) initState) [Key.depthUp])).centerY,
     (handleKeypress (Key.digit 3)
        (List.foldl (fun t k => handleKeypress k t)
          (handleKeypress (Key.shiftDigit 3) initState) [Key.depthUp])).zoom) =
      (initState.centerX, initState.centerY, initState.zoom) :=
  c7_bookmark_roundtrip initState 3 [Key.depthUp] rfl
    (by intro k hk; rw [List.mem_singleton] at hk; exact Or.inr (Or.inl hk))

end Choas

namespace Choas

/-- Counterexample to C3.  At the default viewport in an 80×24 terminal, a
left click at pixel `(0, 0)` recenters on imaginary part `1`, while the
renderer colours that pixel at imaginary part `2`: the click handler omits
the aspect-ratio correction of the renderer's vertical mapping, so the new
center is not the plane point the renderer coloured there. -/
theorem c3_counterexample :
    (handleKeypress (Key.mouse 0 0 0 true 80 24) initState).centerY ≠
      (renderPoint initState 80 24 0 0).2 := by
  norm_num [handleKeypress, renderPoint, initState, DEFAULT_X_RANGE,
    DEFAULT_Y_RANGE]

/-- C3 (amended): a left click at pixel `(col, row)` recenters on the plane
point `(xMin + (col/width) * xRange, yMax - (row/(height-1)) * yRange)`.
That inverts the renderer's horizontal mapping exactly — the real parts
agree for every pixel — but the vertical mapping of the renderer carries an
extra aspect-ratio factor of 2 that the click handler omits, so the
imaginary parts agree exactly when `2*row + 1 = height` (the middle fractal
row) and differ everywhere else. -/
theorem c3_amended (s : ExplorerState) (w h mx my : ℕ)
    (hh : s.showHelp = false) (hz : 0 < s.zoom) (hht : 2 ≤ h) :
    (handleKeypress (Key.mouse 0 mx my true w h) s).centerX =
      (renderPoint s w h mx my).1 ∧
    ((handleKeypress (Key.mouse 0 mx my true w h) s).centerY =
        (renderPoint s w h mx my).2 ↔ 2 * my + 1 = h) := by
  have hzq : s.zoom ≠ 0 := ne_of_gt hz
  have hhq : (2 : ℚ) ≤ (h : ℚ) := by exact_mod_cast hht
  have hh1 : ((h : ℚ) - 1) ≠ 0 := by
    intro h0
    linarith
  have hY : DEFAULT_Y_RANGE / s.zoom ≠ 0 :=
    div_ne_zero (by norm_num [DEFAULT_Y_RANGE]) hzq
  have hclick : handleKeypress (Key.mouse 0 mx my true w h) s =
      { s with
        centerX := s.centerX - DEFAULT_X_RANGE / s.zoom / 2 +
          ((mx : ℚ) / (w : ℚ)) * (DEFAULT_X_RANGE / s.zoom),
        centerY := s.centerY + DEFAULT_Y_RANGE / s.zoom / 2 -
          ((my : ℚ) / ((h : ℚ) - 1)) * (DEFAULT_Y_RANGE / s.zoom) } := by
    simp [handleKeypress, hh]
  constructor
  · rw [hclick]
    simp only [renderPoint]
    ring
  · rw [hclick]
    simp only [renderPoint]
    constructor
    · intro heq
      have h1 : ((my : ℚ) / ((h : ℚ) - 1)) * (DEFAULT_Y_RANGE / s.zoom) =
          (1 / 2) * (DEFAULT_Y_RANGE / s.zoom) := by
        linarith
      have h2 : ((my : ℚ) / ((h : ℚ) - 1)) = 1 / 2 :=
        mul_right_cancel₀ hY h1
      rw [div_eq_iff hh1] at h2
      have h3 : (2 : ℚ) * (my : ℚ) + 1 = (h : ℚ) := by linarith
      exact_mod_cast h3
    · intro heq
      have hcast : (2 : ℚ) * (my : ℚ) + 1 = (h : ℚ) := by exact_mod_cast heq
      have h2 : ((my : ℚ) / ((h : ℚ) - 1)) = 1 / 2 := by
        rw [div_eq_iff hh1]
        linarith
      have h1 : ((my : ℚ) / ((h : ℚ) - 1)) * (DEFAULT_Y_RANGE / s.zoom) =
          (1 / 2) * (DEFAULT_Y_RANGE / s.zoom) := by rw [h2]
      linarith

theorem c3_amended_witness :
    (handleKeypress (Key.mouse 0 5 11 true 80 23) initState).centerX =
      (renderPoint initState 80 23 5 11).1 ∧
    ((handleKeypress (Key.mouse 0 5 11 true 80 23) initState).centerY =
        (renderPoint initState 80 23 5 11).2 ↔ 2 * 11 + 1 = 23) :=
  c3_amended initState 80 23 5 11 rfl (by norm_num [initState]) (by norm_num)

/-- Counterexample to C8.  At escaped value `0` the Fire palette's lightness
is `0.3 + 0.3 * sin 0 = 0.3`, while the Rainbow palette's lightness is
`0.4 + 0.2 * sin 0 = 0.4`: the two palettes do not share the same lightness
oscillation. -/
theorem c8_counterexample :
    (getColorHSL ColorScheme.fire 0).2.2 ≠ (getColorHSL ColorScheme.rainbow 0).2.2 := by
  simp only [getColorHSL]
  norm_num

/-- C8 (amended): for every value the Fire palette uses hue
`60 - (value*2) mod 60` and saturation `1.0` as claimed, but its lightness
is `0.3 + 0.3 * sin(value*0.1)`, which oscillates within `[0, 0.6]` — a
wider and lower band than Rainbow's `0.4 + 0.2 * sin(value*0.1)` in
`[0.2, 0.6]`, so the two oscillations are not the same. -/
theorem c8_amended (v : ℝ) :
    (getColorHSL ColorScheme.fire v).1 = 60 - jsMod (v * 2) 60 ∧
    (getColorHSL ColorScheme.fire v).2.1 = 1 ∧
    (getColorHSL ColorScheme.fire v).2.2 = 0.3 + 0.3 * Real.sin (v * 0.1) ∧
    0 ≤ (getColorHSL ColorScheme.fire v).2.2 ∧
    (getColorHSL ColorScheme.fire v).2.2 ≤ 0.6 ∧
    (getColorHSL ColorScheme.rainbow v).2.2 = 0.4 + 0.2 * Real.sin (v * 0.1) := by
  have hs1 := Real.neg_one_le_sin (v * 0.1)
  have hs2 := Real.sin_le_one (v * 0.1)
  refine ⟨rfl, by norm_num [getColorHSL], rfl, ?_, ?_, rfl⟩
  · simp only [getColorHSL]
    nlinarith
  · simp only [getColorHSL]
    nlinarith

end Choas
